import Mathlib

/-!
Verification of the layer-timing instrumentation of the `object_detection`
repository.  The repository contains two variants of the same module:

* `pytorchures/timing.py` — `TimedLayer` (with construction assertions, a
  `torch.no_grad()` context around delegation, `__getattr__` forwarding and
  `get_timings`), `wrap_model_layers` (bottom-up, returns a proxy for the
  root) and `profile_function`.
* `object_detection/timing.py` — an earlier variant: `TimedLayer` without any
  construction assertion, `wrap_model_layers` that walks `dir(model)`
  top-down, never wraps the root and returns `None`, and the same
  `profile_function`.

The embedding below models a torch module as a finite tree of named children
(`Module.raw`), and a `TimedLayer` proxy as a dedicated node
(`Module.timed`) carrying the wrapped module, the stored class name, the
stored `_total_time_ms` and the stored indent string.  Wall-clock time is a
monotone counter driven by a list of externally chosen non-negative deltas.
Invocation of a raw composite module is modeled as sequential composition of
its children (the framework's layer semantics are external collaborators of
the core, per the specification's scope); a raw leaf applies an arbitrary
interpretation function supplied by the caller.  Autograd recording is
modeled by a tape to which a leaf invocation appends exactly when gradient
mode is enabled.
-/

namespace Timing

/-- A torch module tree: either a plain (raw) module with its class name and
its named child-module attributes, or a `TimedLayer` wrapper holding the
wrapped module, the class name captured at construction time
(`_module_name`), the stored duration (`_total_time_ms`, in milliseconds)
and the indent string (`_indent`). -/
inductive Module where
  | raw (className : String) (children : List (String × Module))
  | timed (wrapped : Module) (moduleName : String) (totalTimeMs : Int) (indent : String)
deriving Repr

/-- Python's `module.__class__.__name__`. -/
def Module.className : Module → String
  | .raw c _ => c
  | .timed _ _ _ _ => "TimedLayer"

/-- Python's `isinstance(m, TimedLayer)`. -/
def Module.isTimed : Module → Bool
  | .timed _ _ _ _ => true
  | .raw _ _ => false

mutual

/-- Erase every `TimedLayer` wrapper, recovering the underlying raw tree.
Used to state that wrapping leaves the wrapped model itself intact. -/
def Module.strip : Module → Module
  | .raw c cs => .raw c (stripChildren cs)
  | .timed m _ _ _ => Module.strip m

/-- Pointwise `Module.strip` over a named-children list. -/
def stripChildren : List (String × Module) → List (String × Module)
  | [] => []
  | (n, c) :: rest => (n, Module.strip c) :: stripChildren rest

end

/-- A Python value passed to `TimedLayer.__init__`: either a torch module or
some non-module object. -/
inductive PyValue where
  | module (m : Module)
  | nonModule (tag : String)

/-- Python's `isinstance(v, torch.nn.Module)`. -/
def PyValue.isModuleInstance : PyValue → Bool
  | .module _ => true
  | .nonModule _ => false

/-- Python's `isinstance(v, TimedLayer)` on an arbitrary value. -/
def PyValue.isTimedInstance : PyValue → Bool
  | .module (.timed _ _ _ _) => true
  | _ => false

/-- Constructor `pytorchures.TimedLayer.__init__(module, indent)`:
`assert isinstance(module, torch.nn.Module)`;
`assert not isinstance(module, TimedLayer)`; then stores the module, its
class name, `_total_time_ms = 0.0` and the indent.  A failed assertion is
modeled as `none`. -/
def TimedLayer.init : PyValue → String → Option Module
  | .nonModule _, _ => none
  | .module (.timed _ _ _ _), _ => none
  | .module (.raw c cs), indent => some (.timed (.raw c cs) c 0 indent)

/-- Helper naming the in-place state of a module after
`wrap_model_layers(child, ...)` returned the given proxy: the recursive call
mutates `child` in place and returns a `TimedLayer` around the very same
object, so the mutated child is the proxy's wrapped module. -/
def innerModule : Module → Module
  | .timed m _ _ _ => m
  | m => m

mutual

/-- Function `pytorchures.wrap_model_layers(model, indent)`:
asserts `model` is a module and not already a `TimedLayer` (the module
assertion is enforced by this embedding's types); for each named child it
first recursively wraps the child in place (the returned deeper-indented
proxy is discarded), then replaces the child attribute by
`TimedLayer(child, indent)`; finally returns `TimedLayer(model, indent)`.
An assertion failure anywhere is `none`.  The `print` diagnostic emitted
before the loop is not modeled. -/
def wrap_model_layers : Module → String → Option Module
  | .timed _ _ _ _, _ => none
  | .raw c cs, indent =>
      match wrapChildren cs indent with
      | none => none
      | some cs' => TimedLayer.init (.module (.raw c cs')) indent

/-- The loop body of `pytorchures.wrap_model_layers` over
`model.named_children()`. -/
def wrapChildren : List (String × Module) → String → Option (List (String × Module))
  | [], _ => some []
  | (name, child) :: rest, indent =>
      match wrap_model_layers child (indent ++ "\t") with
      | none => none
      | some proxy =>
          match TimedLayer.init (.module (innerModule proxy)) indent with
          | none => none
          | some wrappedChild =>
              match wrapChildren rest indent with
              | none => none
              | some rest' => some ((name, wrappedChild) :: rest')

end

/-- A monotone wall clock: the current reading of `time.time()` (in some
fixed unit) together with the non-negative increments the environment will
add at the successive clock reads. -/
structure Clock where
  now : Nat
  deltas : List Nat
deriving Repr

/-- Reading `time.time()`: the environment advances the clock by the next
delta (zero once the supply is exhausted) and the new reading is returned. -/
def tick : Clock → Nat × Clock
  | ⟨n, []⟩ => (n, ⟨n, []⟩)
  | ⟨n, d :: ds⟩ => (n + d, ⟨n + d, ds⟩)

/-- Ambient state threaded through an invocation: the wall clock, the lines
written to the logger, and the autograd tape recording which leaf operations
ran with gradient tracking enabled. -/
structure RunState where
  clock : Clock
  log : List String
  tape : List String
deriving Repr

/-- Arguments and results of a forward call (the argument tuple abstracted
to a single value). -/
abbrev Val := Int

/-- A Python exception raised by a wrapped invocation. -/
abbrev Err := String

/-- Interpretation of raw leaf layers: class name and input to output or
raised exception.  The framework's per-layer semantics are external to the
core, so theorems quantify over this function. -/
abbrev Leaf := String → Val → Except Err Val

/-- The log line `f"{indent}Layer {module_name}: {duration:.6f} ms."`
(fixed-point rendering of the float is abstracted to the integral
duration). -/
def logLine (i n : String) (dur : Int) : String :=
  s!"{i}Layer {n}: {dur} ms."

/-- Result of invoking a module: the returned value or raised exception,
the module's state after the call (stored durations may have changed), and
the ambient state. -/
structure RunOut where
  result : Except Err Val
  layer : Module
  state : RunState

/-- Result of invoking a chain of child modules. -/
structure RunOutChain where
  result : Except Err Val
  children : List (String × Module)
  state : RunState

mutual

/-- Invocation semantics.  A `TimedLayer` executes
`pytorchures.TimedLayer.forward`: inside `torch.no_grad()` (gradient mode
forced off for the delegated call) it reads the start time, delegates to the
wrapped module with unchanged arguments, waits for pending device work
(absorbed into the next clock delta), reads the end time, overwrites
`_total_time_ms` with the elapsed milliseconds, emits the log line and
returns the delegated result unchanged; an exception from the wrapped call
propagates before the end-time read, leaving duration and log untouched.
A raw leaf applies the external interpretation, recording on the autograd
tape exactly when gradient mode is on; a raw composite runs its children in
sequence (the composite's own forward is an external collaborator, modeled
as sequential composition). -/
def runModule (leaf : Leaf) : Module → Val → Bool → RunState → RunOut
  | .raw c [], v, g, s =>
      ⟨leaf c v, .raw c [], { s with tape := s.tape ++ if g then [c] else [] }⟩
  | .raw c (p :: ps), v, g, s =>
      let o := runChain leaf (p :: ps) v g s
      ⟨o.result, .raw c o.children, o.state⟩
  | .timed m n t i, v, _g, s =>
      let t0 := (tick s.clock).1
      let o := runModule leaf m v false { s with clock := (tick s.clock).2 }
      match o.result with
      | .error e => ⟨.error e, .timed o.layer n t i, o.state⟩
      | .ok x =>
          let t1 := (tick o.state.clock).1
          let dur : Int := ((t1 : Int) - (t0 : Int)) * 1000
          ⟨.ok x, .timed o.layer n dur i,
            { o.state with
                clock := (tick o.state.clock).2
                log := o.state.log ++ [logLine i n dur] }⟩

/-- Sequential invocation of a list of named children, threading the value
and stopping at the first exception. -/
def runChain (leaf : Leaf) : List (String × Module) → Val → Bool → RunState → RunOutChain
  | [], v, _, s => ⟨.ok v, [], s⟩
  | (nm, c) :: rest, v, g, s =>
      let o := runModule leaf c v g s
      match o.result with
      | .error e => ⟨.error e, (nm, o.layer) :: rest, o.state⟩
      | .ok v' =>
          let o2 := runChain leaf rest v' g o.state
          ⟨o2.result, (nm, o.layer) :: o2.children, o2.state⟩

end

mutual

/-- Clock- and state-free value semantics of a module tree: a `TimedLayer`
is by construction value-transparent, a leaf applies the interpretation, a
composite chains its children.  Used as the reference point of the
transparency proofs. -/
def pureEval (leaf : Leaf) : Module → Val → Except Err Val
  | .raw c [], v => leaf c v
  | .raw _ (p :: ps), v => pureEvalChain leaf (p :: ps) v
  | .timed m _ _ _, v => pureEval leaf m v

/-- Value semantics of a chain of children. -/
def pureEvalChain (leaf : Leaf) : List (String × Module) → Val → Except Err Val
  | [], v => .ok v
  | (_, c) :: rest, v =>
      match pureEval leaf c v with
      | .error e => .error e
      | .ok v' => pureEvalChain leaf rest v'

end

/-- Python's `module.named_children()`: a raw module's registered children
are its module-valued attributes; a `TimedLayer` (a `torch.nn.Module`
subclass) registered exactly one submodule when `__init__` assigned
`self._module = module`. -/
def Module.namedChildren : Module → List (String × Module)
  | .raw _ cs => cs
  | .timed m _ _ _ => [("_module", m)]

/-- The nested dictionary built by `pytorchures.TimedLayer.get_timings`:
`{"module_name": ..., "total_time": ..., "sub_modules": [...]}`. -/
inductive Timings where
  | mk (module_name : String) (total_time : Int) (sub_modules : List Timings)
deriving Repr

mutual

/-- Method `pytorchures.TimedLayer.get_timings`: reports the stored name
and duration, recursing over `self._module.named_children()` into exactly
the children that are themselves `TimedLayer`s.  The method only exists on
`TimedLayer`; the raw-module arm is an arbitrary total completion that no
theorem relies on. -/
def get_timings : Module → Timings
  | .timed m n t _ => .mk n t (childTimings m)
  | .raw c _ => .mk c 0 []

/-- Reports of the `TimedLayer` children of the module wrapped by a proxy,
in `named_children()` order. -/
def childTimings : Module → List Timings
  | .raw _ cs => chainTimings cs
  | .timed m _ _ _ => if m.isTimed then [get_timings m] else []

/-- The filtering loop of `get_timings` over a named-children list. -/
def chainTimings : List (String × Module) → List Timings
  | [] => []
  | (_, c) :: rest =>
      match c with
      | .timed a b d e => get_timings (.timed a b d e) :: chainTimings rest
      | .raw _ _ => chainTimings rest

end

/-- Shape of a component tree: node names with the list of child shapes. -/
inductive Shape where
  | node (name : String) (children : List Shape)
deriving Repr

mutual

/-- Shape of the underlying component tree (proxies are transparent: a
`TimedLayer`'s shape is its wrapped module's shape). -/
def shapeOf : Module → Shape
  | .raw c cs => .node c (shapeOfChildren cs)
  | .timed m _ _ _ => shapeOf m

/-- Shapes of a named-children list. -/
def shapeOfChildren : List (String × Module) → List Shape
  | [] => []
  | (_, c) :: rest => shapeOf c :: shapeOfChildren rest

end

mutual

/-- Shape of a timing report. -/
def reportShape : Timings → Shape
  | .mk n _ subs => .node n (reportShapeList subs)

/-- Shapes of a list of timing reports. -/
def reportShapeList : List Timings → List Shape
  | [] => []
  | t :: ts => reportShape t :: reportShapeList ts

end

mutual

/-- Every duration recorded in a timing report is non-negative. -/
def reportNonneg : Timings → Bool
  | .mk _ t subs => decide (0 ≤ t) && reportNonnegList subs

/-- List version of `reportNonneg`. -/
def reportNonnegList : List Timings → Bool
  | [] => true
  | t :: ts => reportNonneg t && reportNonnegList ts

end

mutual

/-- Full-coverage invariant: every child slot of every wrapped component in
the tree holds a `TimedLayer`. -/
def fullCoverage : Module → Bool
  | .raw _ cs => coveredChildren cs
  | .timed m _ _ _ => fullCoverage m

/-- List version of `fullCoverage`: each slot is a proxy and is itself
fully covered. -/
def coveredChildren : List (String × Module) → Bool
  | [] => true
  | (_, c) :: rest => (c.isTimed && fullCoverage c) && coveredChildren rest

end

mutual

/-- Every stored `_total_time_ms` in the tree is non-negative. -/
def nonnegDur : Module → Bool
  | .raw _ cs => nonnegDurChildren cs
  | .timed m _ t _ => decide (0 ≤ t) && nonnegDur m

/-- List version of `nonnegDur`. -/
def nonnegDurChildren : List (String × Module) → Bool
  | [] => true
  | (_, c) :: rest => nonnegDur c && nonnegDurChildren rest

end

mutual

/-- Indent discipline actually produced by `pytorchures.wrap_model_layers`
on the component wrapped by a proxy whose installed child proxies are
expected at indent `e`: every child slot is a proxy carrying exactly `e`,
and its own wrapped component's slots carry `e ++ "\t"`. -/
def slotsIndented : Module → String → Bool
  | .raw _ cs, e => slotsIndentedChildren cs e
  | .timed m _ _ _, e => slotsIndented m e

/-- List version of `slotsIndented`. -/
def slotsIndentedChildren : List (String × Module) → String → Bool
  | [], _ => true
  | (_, c) :: rest, e =>
      (match c with
       | .timed m _ _ i => (i == e) && slotsIndented m (e ++ "\t")
       | .raw _ _ => false)
      && slotsIndentedChildren rest e

end

/-- A Python function together with its introspection metadata. -/
structure PyFunction where
  name : String
  doc : String
  fn : Val → Except Err Val

/-- Result of calling a profiled function: value or exception, clock
afterwards, and the lines logged by the wrapper. -/
structure ProfiledOut where
  result : Except Err Val
  clock : Clock
  log : List String

/-- A profiled callable: the wrapper produced by `profile_function`,
carrying the metadata copied by `functools.wraps`. -/
structure ProfiledFunction where
  name : String
  doc : String
  call : Val → Clock → ProfiledOut

/-- Decorator `pytorchures.profile_function` (identical in the
`object_detection` variant up to the log destination): `@wraps(f)` copies
`__name__` and `__doc__`; the wrapper reads the clock, calls `f` with
unchanged arguments, reads the clock again, logs
`f"Function '{name}' executed in {elapsed:.4f} ms."` and returns the result
unchanged; an exception from `f` propagates before the second clock read
and the log line. -/
def profile_function (f : PyFunction) : ProfiledFunction :=
  { name := f.name
    doc := f.doc
    call := fun x clk =>
      let ts := (tick clk).1
      match f.fn x with
      | .error e => ⟨.error e, (tick clk).2, []⟩
      | .ok v =>
          let te := (tick (tick clk).2).1
          let elapsed : Int := ((te : Int) - (ts : Int)) * 1000
          let nm := f.name
          ⟨.ok v, (tick (tick clk).2).2,
            [s!"Function \x27{nm}\x27 executed in {elapsed} ms."]⟩ }

/-- Attribute-lookup model of a `pytorchures.TimedLayer` instance, with
attribute values drawn from an arbitrary type `β`.  `ownAttrs` are the
names found by Python's normal lookup (instance `__dict__` entries such as
`_module_name`, and class attributes such as `forward`, `get_timings`,
`__len__`, `__iter__`); `registered` are the names `torch.nn.Module.__getattr__`
resolves from the `_parameters`/`_buffers`/`_modules` registries (such as
`_module`); `wrappedAttrs` are the attributes reachable on the wrapped
module via `getattr(self._module, name)`. -/
structure TimedLayerAttrs (β : Type) where
  ownAttrs : List (String × β)
  registered : List (String × β)
  wrappedAttrs : List (String × β)

/-- First binding of a name in an attribute list. -/
def lookupAttr {β : Type} (l : List (String × β)) (n : String) : Option β :=
  (l.find? (fun p => p.1 == n)).map (fun p => p.2)

/-- Method `pytorchures.TimedLayer.__getattr__`: try
`super().__getattr__(name)` (the torch registries) and on `AttributeError`
fall back to `getattr(self._module, name)`; `none` models the final
`AttributeError`. -/
def dunderGetattr {β : Type} (t : TimedLayerAttrs β) (n : String) : Option β :=
  match lookupAttr t.registered n with
  | some v => some v
  | none => lookupAttr t.wrappedAttrs n

/-- Python attribute access `getattr(proxy, name)`: `__getattr__` is
consulted only when normal lookup fails. -/
def getattrTimed {β : Type} (t : TimedLayerAttrs β) (n : String) : Option β :=
  match lookupAttr t.ownAttrs n with
  | some v => some v
  | none => dunderGetattr t n

namespace ObjectDetection

/-- Constructor `object_detection.TimedLayer.__init__(layer, indent)`: no
assertion of any kind; stores the layer, `_total_time = 0.0` and the
indent.  (The class name printed by `forward` is read from
`self.layer.__class__.__name__`, which this embedding captures at
construction; the stored layer never changes class.)  Construction always
succeeds, even on a layer that is already a `TimedLayer`. -/
def TimedLayer.init (layer : Module) (indent : String) : Module :=
  .timed layer layer.className 0 indent

mutual

/-- Function `object_detection.wrap_model_layers(model, indent)`: walks
`dir(model)`, and for every module-valued attribute `attr` first executes
`setattr(model, a, TimedLayer(attr, indent))` and then recurses into the
original `attr` with `indent + "\t"` (top-down; the recursion mutates the
object already captured inside the just-installed proxy).  The Python
function returns `None` and only mutates `model`; this embedding returns
the mutated `model`.  The root itself is never wrapped.  On a `TimedLayer`
the module-valued attribute found by `dir` is `layer`. -/
def wrap_model_layers : Module → String → Module
  | .raw c cs, indent => .raw c (wrapAttrs cs indent)
  | .timed m n t i, indent =>
      .timed (TimedLayer.init (wrap_model_layers m (indent ++ "\t")) indent) n t i

/-- The `dir(model)` loop of `object_detection.wrap_model_layers` over the
module-valued attributes. -/
def wrapAttrs : List (String × Module) → String → List (String × Module)
  | [], _ => []
  | (a, attr) :: rest, indent =>
      (a, TimedLayer.init (wrap_model_layers attr (indent ++ "\t")) indent)
        :: wrapAttrs rest indent

end

end ObjectDetection

/-- Sample leaf interpretation used by concrete witnesses. -/
def sampleLeaf : Leaf := fun _ v => .ok (v + 1)

/-- Sample leaf interpretation that always raises, used by the
error-propagation witness. -/
def failLeaf : Leaf := fun _ _ => .error "RuntimeError: boom"

/-- Sample model tree used by concrete witnesses. -/
def sampleRoot : Module :=
  .raw "Net" [("f", .raw "Linear" []), ("g", .raw "Seq" [("h", .raw "ReLU" [])])]

/-- Sample ambient state used by concrete witnesses. -/
def sampleState : RunState := ⟨⟨0, [3, 1, 4, 1, 5, 9, 2, 6]⟩, [], []⟩

/-- The wrapped sample model (the value `wrap_model_layers` returns on
`sampleRoot`). -/
def sampleWrapped : Module :=
  match wrap_model_layers sampleRoot "\t" with
  | some p => p
  | none => sampleRoot

/-- Sample profiled function used by concrete witnesses. -/
def sampleFunction : PyFunction :=
  ⟨"double", "Doubles its argument.", fun x => .ok (x * 2)⟩

/-- Sample attribute tables used by the attribute-forwarding witness. -/
def sampleAttrs : TimedLayerAttrs Nat :=
  ⟨[("forward", 1), ("get_timings", 2)], [("_module", 3)], [("postprocess", 4)]⟩

/-! ## Lemmas about the clock -/

theorem tick_fst_le (c : Clock) : c.now ≤ (tick c).1 := by
  obtain ⟨n, ds⟩ := c
  cases ds <;> simp [tick]

theorem tick_snd_now (c : Clock) : ((tick c).2).now = (tick c).1 := by
  obtain ⟨n, ds⟩ := c
  cases ds <;> simp [tick]

/-! ## Invocation returns the pure value semantics -/

mutual

theorem run_result (leaf : Leaf) : ∀ (m : Module) (v : Val) (g : Bool) (s : RunState),
    (runModule leaf m v g s).result = pureEval leaf m v
  | .raw c [], v, g, s => by
      simp [runModule, pureEval]
  | .raw c (p :: ps), v, g, s => by
      simp only [runModule, pureEval]
      exact runChain_result leaf (p :: ps) v g s
  | .timed m n t i, v, g, s => by
      have ih := run_result leaf m v false { s with clock := (tick s.clock).2 }
      simp only [runModule, pureEval]
      split
      · next e heq => rw [heq] at ih; exact ih
      · next x heq => rw [heq] at ih; exact ih

theorem runChain_result (leaf : Leaf) : ∀ (cs : List (String × Module)) (v : Val) (g : Bool)
    (s : RunState), (runChain leaf cs v g s).result = pureEvalChain leaf cs v
  | [], v, g, s => by
      simp [runChain, pureEvalChain]
  | (nm, c) :: rest, v, g, s => by
      have ih := run_result leaf c v g s
      simp only [runChain, pureEvalChain]
      split
      · next e heq =>
          rw [heq] at ih
          rw [← ih]
      · next x heq =>
          rw [heq] at ih
          rw [← ih]
          simp only
          exact runChain_result leaf rest x g (runModule leaf c v g s).state

end

/-! ## Lemmas about `wrap_model_layers` -/

theorem wrap_some_elim (m : Module) (ind : String) (P : Module)
    (h : wrap_model_layers m ind = some P) :
    ∃ c cs cs', m = .raw c cs ∧ wrapChildren cs ind = some cs' ∧
      P = .timed (.raw c cs') c 0 ind := by
  cases m with
  | timed m n t i => simp [wrap_model_layers] at h
  | raw c cs =>
      simp only [wrap_model_layers] at h
      split at h
      · simp at h
      · next cs' heq =>
          refine ⟨c, cs, cs', rfl, heq, ?_⟩
          simp only [TimedLayer.init, Option.some.injEq] at h
          exact h.symm

mutual

theorem wrap_props : ∀ (m : Module) (ind : String) (P : Module),
    wrap_model_layers m ind = some P →
    Module.strip P = m ∧
    fullCoverage P = true ∧
    nonnegDur P = true ∧
    slotsIndented (innerModule P) ind = true ∧
    (∀ (leaf : Leaf) (v : Val), pureEval leaf P v = pureEval leaf m v) ∧
    reportShape (get_timings P) = shapeOf m
  | .timed m n t i, ind, P => by
      intro h
      simp [wrap_model_layers] at h
  | .raw c cs, ind, P => by
      intro h
      simp only [wrap_model_layers] at h
      split at h
      · simp at h
      · next cs₀ heq =>
          simp only [TimedLayer.init, Option.some.injEq] at h
          obtain ⟨hmap, hstrip, hcov, hnn, hsl, hpe, hrs, _hmem⟩ :=
            wrapChildren_props cs ind cs₀ heq
          subst h
          refine ⟨?_, ?_, ?_, ?_, ?_, ?_⟩
          · simp [Module.strip, hstrip]
          · simp [fullCoverage, hcov]
          · simp [nonnegDur, hnn]
          · simp [innerModule, slotsIndented, hsl]
          · intro leaf v
            simp only [pureEval]
            cases cs with
            | nil =>
                have hnil : cs₀ = [] := by
                  cases cs₀ with
                  | nil => rfl
                  | cons q qs => simp at hmap
                subst hnil
                simp [pureEval]
            | cons p ps =>
                cases cs₀ with
                | nil => simp at hmap
                | cons q qs =>
                    simp only [pureEval]
                    exact hpe leaf v
          · simp only [get_timings, childTimings, reportShape, shapeOf]
            rw [hrs]

theorem wrapChildren_props : ∀ (cs : List (String × Module)) (ind : String)
    (cs' : List (String × Module)), wrapChildren cs ind = some cs' →
    List.map Prod.fst cs' = List.map Prod.fst cs ∧
    stripChildren cs' = cs ∧
    coveredChildren cs' = true ∧
    nonnegDurChildren cs' = true ∧
    slotsIndentedChildren cs' ind = true ∧
    (∀ (leaf : Leaf) (v : Val), pureEvalChain leaf cs' v = pureEvalChain leaf cs v) ∧
    reportShapeList (chainTimings cs') = shapeOfChildren cs ∧
    (∀ p ∈ cs', p.2.isTimed = true)
  | [], ind, cs' => by
      intro h
      simp only [wrapChildren, Option.some.injEq] at h
      subst h
      refine ⟨rfl, rfl, rfl, rfl, rfl, fun leaf v => rfl, rfl, ?_⟩
      intro p hp
      cases hp
  | (name, child) :: rest, ind, cs' => by
      intro h
      simp only [wrapChildren] at h
      split at h
      · simp at h
      · next proxy hproxy =>
          split at h
          · simp at h
          · next w hw =>
              split at h
              · simp at h
              · next rest' hrest =>
                  simp only [Option.some.injEq] at h
                  subst h
                  obtain ⟨cc, ccs, ccs₀, hchild, _hcw, hproxyEq⟩ :=
                    wrap_some_elim child (ind ++ "\t") proxy hproxy
                  obtain ⟨hstripP, hcovP, hnnP, hslP, hpeP, hrsP⟩ :=
                    wrap_props child (ind ++ "\t") proxy hproxy
                  obtain ⟨ihmap, ihstrip, ihcov, ihnn, ihsl, ihpe, ihrs, ihmem⟩ :=
                    wrapChildren_props rest ind rest' hrest
                  subst hchild
                  subst hproxyEq
                  simp only [innerModule, TimedLayer.init, Option.some.injEq] at hw
                  subst hw
                  simp only [Module.strip] at hstripP
                  simp only [fullCoverage] at hcovP
                  simp only [nonnegDur] at hnnP
                  simp only [innerModule] at hslP
                  simp only [pureEval] at hpeP
                  simp only [get_timings] at hrsP
                  refine ⟨?_, ?_, ?_, ?_, ?_, ?_, ?_, ?_⟩
                  · simp [ihmap]
                  · simp only [stripChildren, Module.strip]
                    rw [hstripP, ihstrip]
                  · simp only [coveredChildren, Module.isTimed, fullCoverage, Bool.true_and]
                    rw [hcovP, ihcov]
                    rfl
                  · simp only [nonnegDurChildren, nonnegDur]
                    simp only [Bool.and_eq_true] at hnnP ⊢
                    exact ⟨⟨by decide, hnnP.2⟩, ihnn⟩
                  · simp only [slotsIndentedChildren]
                    rw [hslP, ihsl]
                    simp
                  · intro leaf v
                    simp only [pureEvalChain, pureEval]
                    rw [hpeP leaf v]
                    cases hc : pureEval leaf (.raw cc ccs) v with
                    | error e => rfl
                    | ok v' => exact ihpe leaf v'
                  · simp only [chainTimings, reportShapeList, shapeOfChildren, get_timings]
                    rw [hrsP, ihrs]
                  · intro p hp
                    cases hp with
                    | head => rfl
                    | tail _ hp' => exact ihmem p hp'

end

/-! ## Lemmas about `runModule` -/

mutual

theorem run_clock_mono (leaf : Leaf) : ∀ (m : Module) (v : Val) (g : Bool) (s : RunState),
    s.clock.now ≤ (runModule leaf m v g s).state.clock.now
  | .raw c [], v, g, s => by simp [runModule]
  | .raw c (p :: ps), v, g, s => by
      simp only [runModule]
      exact runChain_clock_mono leaf (p :: ps) v g s
  | .timed m n t i, v, g, s => by
      have h1 : s.clock.now ≤ ((tick s.clock).2).now := by
        rw [tick_snd_now]; exact tick_fst_le s.clock
      have ih := run_clock_mono leaf m v false { s with clock := (tick s.clock).2 }
      simp only [runModule]
      split
      · exact le_trans h1 ih
      · dsimp only
        refine le_trans (le_trans h1 ih) ?_
        rw [tick_snd_now]
        exact tick_fst_le _

theorem runChain_clock_mono (leaf : Leaf) : ∀ (cs : List (String × Module)) (v : Val) (g : Bool)
    (s : RunState), s.clock.now ≤ (runChain leaf cs v g s).state.clock.now
  | [], v, g, s => by simp [runChain]
  | (nm, c) :: rest, v, g, s => by
      have ih := run_clock_mono leaf c v g s
      simp only [runChain]
      split
      · exact ih
      · next x heq =>
          exact le_trans ih
            (runChain_clock_mono leaf rest x g (runModule leaf c v g s).state)

end

mutual

theorem run_tape_nograd (leaf : Leaf) : ∀ (m : Module) (v : Val) (s : RunState),
    (runModule leaf m v false s).state.tape = s.tape
  | .raw c [], v, s => by simp [runModule]
  | .raw c (p :: ps), v, s => by
      simp only [runModule]
      exact runChain_tape_nograd leaf (p :: ps) v s
  | .timed m n t i, v, s => by
      have ih := run_tape_nograd leaf m v { s with clock := (tick s.clock).2 }
      simp only [runModule]
      split
      · exact ih
      · exact ih

theorem runChain_tape_nograd (leaf : Leaf) : ∀ (cs : List (String × Module)) (v : Val)
    (s : RunState), (runChain leaf cs v false s).state.tape = s.tape
  | [], v, s => by simp [runChain]
  | (nm, c) :: rest, v, s => by
      have ih := run_tape_nograd leaf c v s
      simp only [runChain]
      split
      · exact ih
      · next x heq =>
          rw [runChain_tape_nograd leaf rest x (runModule leaf c v false s).state]
          exact ih

end

mutual

theorem run_nonneg (leaf : Leaf) : ∀ (m : Module) (v : Val) (g : Bool) (s : RunState),
    nonnegDur m = true → nonnegDur (runModule leaf m v g s).layer = true
  | .raw c [], v, g, s => by
      intro h
      simpa [runModule] using h
  | .raw c (p :: ps), v, g, s => by
      intro h
      simp only [nonnegDur] at h
      simp only [runModule, nonnegDur]
      exact runChain_nonneg leaf (p :: ps) v g s h
  | .timed m n t i, v, g, s => by
      intro h
      simp only [nonnegDur, Bool.and_eq_true] at h
      have ih := run_nonneg leaf m v false { s with clock := (tick s.clock).2 } h.2
      simp only [runModule]
      split
      · simp only [nonnegDur, Bool.and_eq_true]
        exact ⟨h.1, ih⟩
      · dsimp only
        simp only [nonnegDur, Bool.and_eq_true]
        refine ⟨?_, ih⟩
        have hle : (tick s.clock).1 ≤
            (tick (runModule leaf m v false { s with clock := (tick s.clock).2 }).state.clock).1 :=
          calc (tick s.clock).1 = ((tick s.clock).2).now := (tick_snd_now _).symm
            _ ≤ (runModule leaf m v false { s with clock := (tick s.clock).2 }).state.clock.now :=
                run_clock_mono leaf m v false { s with clock := (tick s.clock).2 }
            _ ≤ _ := tick_fst_le _
        simp only [decide_eq_true_eq]
        refine mul_nonneg ?_ (by norm_num)
        refine sub_nonneg.mpr ?_
        exact_mod_cast hle

theorem runChain_nonneg (leaf : Leaf) : ∀ (cs : List (String × Module)) (v : Val) (g : Bool)
    (s : RunState), nonnegDurChildren cs = true →
    nonnegDurChildren (runChain leaf cs v g s).children = true
  | [], v, g, s => by
      intro h
      simpa [runChain] using h
  | (nm, c) :: rest, v, g, s => by
      intro h
      simp only [nonnegDurChildren, Bool.and_eq_true] at h
      have ih := run_nonneg leaf c v g s h.1
      simp only [runChain]
      split
      · simp only [nonnegDurChildren, Bool.and_eq_true]
        exact ⟨ih, h.2⟩
      · next x heq =>
          simp only [nonnegDurChildren, Bool.and_eq_true]
          exact ⟨ih, runChain_nonneg leaf rest x g (runModule leaf c v g s).state h.2⟩

end

theorem run_raw_nil_layer (leaf : Leaf) (c : String) (v : Val) (g : Bool) (s : RunState) :
    (runModule leaf (.raw c []) v g s).layer = .raw c [] := by
  simp [runModule]

theorem run_raw_cons_layer (leaf : Leaf) (c : String) (p : String × Module)
    (ps : List (String × Module)) (v : Val) (g : Bool) (s : RunState) :
    (runModule leaf (.raw c (p :: ps)) v g s).layer =
      .raw c ((runChain leaf (p :: ps) v g s).children) := by
  simp [runModule]

theorem run_timed_layer (leaf : Leaf) (m : Module) (n : String) (t : Int) (i : String)
    (v : Val) (g : Bool) (s : RunState) :
    ∃ t₂, (runModule leaf (.timed m n t i) v g s).layer =
      .timed ((runModule leaf m v false { s with clock := (tick s.clock).2 }).layer) n t₂ i := by
  simp only [runModule]
  split
  · exact ⟨t, rfl⟩
  · exact ⟨_, rfl⟩

theorem run_isTimed (leaf : Leaf) (m : Module) (v : Val) (g : Bool) (s : RunState) :
    ((runModule leaf m v g s).layer).isTimed = m.isTimed := by
  cases m with
  | raw c cs =>
      cases cs with
      | nil => rw [run_raw_nil_layer]
      | cons p ps => rw [run_raw_cons_layer]; rfl
  | timed m n t i =>
      obtain ⟨t₂, hl⟩ := run_timed_layer leaf m n t i v g s
      rw [hl]; rfl

mutual

theorem runShape_mod (leaf : Leaf) : ∀ (m : Module) (v : Val) (g : Bool) (s : RunState),
    reportShape (get_timings (runModule leaf m v g s).layer) = reportShape (get_timings m)
  | .raw c [], v, g, s => by rw [run_raw_nil_layer]
  | .raw c (p :: ps), v, g, s => by
      rw [run_raw_cons_layer]; rfl
  | .timed m n t i, v, g, s => by
      obtain ⟨t₂, hl⟩ := run_timed_layer leaf m n t i v g s
      rw [hl]
      simp only [get_timings, reportShape]
      rw [runShape_inner leaf m v false { s with clock := (tick s.clock).2 }]

theorem runShape_inner (leaf : Leaf) : ∀ (m : Module) (v : Val) (g : Bool) (s : RunState),
    reportShapeList (childTimings ((runModule leaf m v g s).layer)) =
      reportShapeList (childTimings m)
  | .raw c [], v, g, s => by rw [run_raw_nil_layer]
  | .raw c (p :: ps), v, g, s => by
      rw [run_raw_cons_layer]
      simp only [childTimings]
      exact runShape_chain leaf (p :: ps) v g s
  | .timed m n t i, v, g, s => by
      obtain ⟨t₂, hl⟩ := run_timed_layer leaf m n t i v g s
      rw [hl]
      simp only [childTimings]
      rw [run_isTimed]
      cases hmt : m.isTimed with
      | false => simp
      | true =>
          simp only [if_pos]
          simp only [reportShapeList]
          rw [runShape_mod leaf m v false { s with clock := (tick s.clock).2 }]

theorem runShape_chain (leaf : Leaf) : ∀ (cs : List (String × Module)) (v : Val) (g : Bool)
    (s : RunState),
    reportShapeList (chainTimings (runChain leaf cs v g s).children) =
      reportShapeList (chainTimings cs)
  | [], v, g, s => by simp [runChain]
  | (nm, c) :: rest, v, g, s => by
      simp only [runChain]
      split
      · next e heq =>
          dsimp only
          cases c with
          | raw cc ccs =>
              cases ccs with
              | nil => rw [run_raw_nil_layer]
              | cons q qs =>
                  rw [run_raw_cons_layer]
                  simp only [chainTimings]
          | timed mm nn tt ii =>
              obtain ⟨t₂, hl⟩ := run_timed_layer leaf mm nn tt ii v g s
              rw [hl]
              simp only [chainTimings, reportShapeList, get_timings, reportShape]
              rw [runShape_inner leaf mm v false { s with clock := (tick s.clock).2 }]
      · next x heq =>
          dsimp only
          have htail := runShape_chain leaf rest x g (runModule leaf c v g s).state
          cases c with
          | raw cc ccs =>
              cases ccs with
              | nil =>
                  rw [run_raw_nil_layer]
                  simp only [chainTimings]
                  exact htail
              | cons q qs =>
                  rw [run_raw_cons_layer]
                  simp only [chainTimings]
                  exact htail
          | timed mm nn tt ii =>
              obtain ⟨t₂, hl⟩ := run_timed_layer leaf mm nn tt ii v g s
              rw [hl]
              simp only [chainTimings, reportShapeList, get_timings, reportShape]
              rw [runShape_inner leaf mm v false { s with clock := (tick s.clock).2 }, htail]

end

/-! ## Lemmas about the timing report -/

mutual

theorem gt_nonneg : ∀ (m : Module), nonnegDur m = true → reportNonneg (get_timings m) = true
  | .raw c cs => by
      intro h
      simp [get_timings, reportNonneg, reportNonnegList]
  | .timed m n t i => by
      intro h
      simp only [nonnegDur, Bool.and_eq_true] at h
      simp only [get_timings, reportNonneg, Bool.and_eq_true]
      exact ⟨h.1, childT_nonneg m h.2⟩
termination_by m => sizeOf m

theorem childT_nonneg : ∀ (m : Module), nonnegDur m = true →
    reportNonnegList (childTimings m) = true
  | .raw c cs => by
      intro h
      simp only [nonnegDur] at h
      simp only [childTimings]
      exact chainT_nonneg cs h
  | .timed m n t i => by
      intro h
      simp only [nonnegDur, Bool.and_eq_true] at h
      simp only [childTimings]
      cases hmt : m.isTimed with
      | false => simp only [Bool.false_eq_true, if_false]; rfl
      | true =>
          simp only [if_true, reportNonnegList, Bool.and_eq_true]
          exact ⟨gt_nonneg m h.2, trivial⟩
termination_by m => sizeOf m

theorem chainT_nonneg : ∀ (cs : List (String × Module)), nonnegDurChildren cs = true →
    reportNonnegList (chainTimings cs) = true
  | [] => by intro h; rfl
  | (nm, .raw cc ccs) :: rest => by
      intro h
      simp only [nonnegDurChildren, Bool.and_eq_true] at h
      simp only [chainTimings]
      exact chainT_nonneg rest h.2
  | (nm, .timed a b d e) :: rest => by
      intro h
      simp only [nonnegDurChildren, Bool.and_eq_true] at h
      simp only [chainTimings, reportNonnegList, Bool.and_eq_true]
      exact ⟨gt_nonneg (.timed a b d e) h.1, chainT_nonneg rest h.2⟩
termination_by cs => sizeOf cs

end

theorem coveredChildren_mem : ∀ (cs : List (String × Module)), coveredChildren cs = true →
    ∀ p ∈ cs, p.2.isTimed = true ∧ fullCoverage p.2 = true
  | [] => by intro h p hp; cases hp
  | q :: rest => by
      intro h p hp
      obtain ⟨nm, c⟩ := q
      simp only [coveredChildren, Bool.and_eq_true] at h
      cases hp with
      | head => exact ⟨h.1.1, h.1.2⟩
      | tail _ hp' => exact coveredChildren_mem rest h.2 p hp'

/-! ## Lemmas about the `object_detection` variant's wrapper -/

mutual

theorem od_fullCoverage : ∀ (m : Module) (ind : String),
    fullCoverage (ObjectDetection.wrap_model_layers m ind) = true
  | .raw c cs, ind => by
      simp only [ObjectDetection.wrap_model_layers, fullCoverage]
      exact od_coveredAttrs cs ind
  | .timed m n t i, ind => by
      simp only [ObjectDetection.wrap_model_layers, ObjectDetection.TimedLayer.init,
        fullCoverage]
      exact od_fullCoverage m (ind ++ "\t")

theorem od_coveredAttrs : ∀ (cs : List (String × Module)) (ind : String),
    coveredChildren (ObjectDetection.wrapAttrs cs ind) = true
  | [], ind => by rfl
  | (a, attr) :: rest, ind => by
      simp only [ObjectDetection.wrapAttrs, coveredChildren,
        ObjectDetection.TimedLayer.init, Module.isTimed, fullCoverage, Bool.true_and,
        Bool.and_eq_true]
      exact ⟨od_fullCoverage attr (ind ++ "\t"), od_coveredAttrs rest ind⟩

end

/-! ## Claim theorems -/

/-- Claim C1 (transparency law): for every valid component tree (any leaf
interpretation, any unwrapped tree) and every argument, invoking the proxy
returned by `wrap_model_layers` yields exactly the value (or exception)
returned by invoking the component directly — whatever the ambient gradient
mode and clock state of either invocation.  The proxy alters neither the
inputs (they are passed on verbatim by construction) nor the output. -/
theorem transparency_law (leaf : Leaf) (root P : Module) (ind : String) (v : Val)
    (g : Bool) (s : RunState) (g' : Bool) (s' : RunState)
    (h : wrap_model_layers root ind = some P) :
    (runModule leaf P v g s).result = (runModule leaf root v g' s').result := by
  obtain ⟨-, -, -, -, hpe, -⟩ := wrap_props root ind P h
  rw [run_result leaf P v g s, run_result leaf root v g' s']
  exact hpe leaf v

/-- Witness for C1 at a concrete tree, leaf interpretation and input. -/
theorem transparency_law_witness :
    (runModule sampleLeaf sampleWrapped 5 true sampleState).result =
      (runModule sampleLeaf sampleRoot 5 false sampleState).result :=
  transparency_law sampleLeaf sampleRoot sampleWrapped "\t" 5 true sampleState false
    sampleState (by rfl)

/-- Claim C2, amended: the `pytorchures` variant validates construction —
`TimedLayer.__init__` fails its assertions on a non-module or an existing
`TimedLayer`, and `wrap_model_layers` fails its assertion on a `TimedLayer`
root — but the `object_detection` variant performs no validation at all:
its constructor succeeds on any layer, including one that is already a
`TimedLayer` (silent double-wrap). -/
theorem double_wrap_guard :
    (∀ (v : PyValue) (ind : String),
        v.isModuleInstance = false ∨ v.isTimedInstance = true →
        TimedLayer.init v ind = none) ∧
    (∀ (m : Module) (ind : String), m.isTimed = true → wrap_model_layers m ind = none) ∧
    (∀ (layer : Module) (ind : String),
        ObjectDetection.TimedLayer.init layer ind = .timed layer layer.className 0 ind) := by
  refine ⟨?_, ?_, ?_⟩
  · intro v ind h
    cases v with
    | nonModule t => rfl
    | module m =>
        cases m with
        | raw c cs =>
            rcases h with h | h
            · simp [PyValue.isModuleInstance] at h
            · simp [PyValue.isTimedInstance] at h
        | timed m n t i => rfl
  · intro m ind h
    cases m with
    | raw c cs => simp [Module.isTimed] at h
    | timed m n t i => rfl
  · intro layer ind
    rfl

/-- Witness for C2: the `pytorchures` constructor rejects an already-wrapped
layer. -/
theorem double_wrap_guard_witness :
    TimedLayer.init (.module (.timed (.raw "Conv2d" []) "Conv2d" 0 "\t")) "\t" = none :=
  double_wrap_guard.1 (.module (.timed (.raw "Conv2d" []) "Conv2d" 0 "\t")) "\t"
    (Or.inr rfl)

/-- Counterexample to claim C2 as stated: in the `object_detection` variant,
constructing a `TimedLayer` around a component that is already a
`TimedLayer` does not fail — it succeeds and silently double-wraps. -/
theorem double_wrap_cex :
    Module.isTimed (.timed (.raw "Conv2d" []) "Conv2d" 0 "\t") = true ∧
    ObjectDetection.TimedLayer.init (.timed (.raw "Conv2d" []) "Conv2d" 0 "\t") "\t" =
      .timed (.timed (.raw "Conv2d" []) "Conv2d" 0 "\t") "TimedLayer" 0 "\t" :=
  ⟨rfl, rfl⟩

/-- Claim C3, amended: in the `pytorchures` variant the full-coverage law
holds — the returned root object is a proxy, and every child slot of every
wrapped component is a proxy.  In the `object_detection` variant every child
slot also becomes a proxy (top-down), but the root object itself is never
wrapped and remains a raw component. -/
theorem full_coverage_law :
    (∀ (root : Module) (ind : String) (P : Module), wrap_model_layers root ind = some P →
        P.isTimed = true ∧ fullCoverage P = true) ∧
    (∀ (m : Module) (ind : String),
        fullCoverage (ObjectDetection.wrap_model_layers m ind) = true) ∧
    (∀ (c : String) (cs : List (String × Module)) (ind : String),
        Module.isTimed (ObjectDetection.wrap_model_layers (.raw c cs) ind) = false) := by
  refine ⟨?_, ?_, ?_⟩
  · intro root ind P h
    obtain ⟨c, cs, cs', -, -, hP⟩ := wrap_some_elim root ind P h
    obtain ⟨-, hcov, -, -, -, -⟩ := wrap_props root ind P h
    exact ⟨by rw [hP]; rfl, hcov⟩
  · intro m ind
    exact od_fullCoverage m ind
  · intro c cs ind
    rfl

/-- Witness for C3 at a concrete tree. -/
theorem full_coverage_law_witness :
    Module.isTimed sampleWrapped = true ∧ fullCoverage sampleWrapped = true :=
  full_coverage_law.1 sampleRoot "\t" sampleWrapped (by rfl)

/-- Counterexample to claim C3 as stated: after the `object_detection`
variant's `wrap_model_layers`, the root node reachable from the caller's
reference is still a raw component, not a Timing Proxy. -/
theorem full_coverage_cex :
    ObjectDetection.wrap_model_layers (.raw "Detector" [("backbone", .raw "ResNet" [])]) "\t" =
      .raw "Detector" [("backbone", .timed (.raw "ResNet" []) "ResNet" 0 "\t")] ∧
    Module.isTimed
      (ObjectDetection.wrap_model_layers
        (.raw "Detector" [("backbone", .raw "ResNet" [])]) "\t") = false :=
  ⟨rfl, rfl⟩

/-- Claim C4, amended: the `pytorchures` variant satisfies the wrap
contract — on an unwrapped root, `wrap_model_layers` replaces each direct
child reference in place by a proxy of that (fully recursively wrapped)
child, preserving the child names, and returns a new `TimedLayer` whose
wrapped component is the root object itself (the underlying tree of the
returned proxy is exactly the original root).  The `object_detection`
variant instead wraps top-down, never wraps the root, and returns `None`
rather than a proxy wrapping the root. -/
theorem wrap_contract :
    (∀ (root : Module) (ind : String) (P : Module), wrap_model_layers root ind = some P →
      ∃ c cs cs',
        root = .raw c cs ∧
        P = .timed (.raw c cs') c 0 ind ∧
        List.map Prod.fst cs' = List.map Prod.fst cs ∧
        (∀ p ∈ cs', p.2.isTimed = true ∧ fullCoverage p.2 = true) ∧
        Module.strip P = root) ∧
    (∀ (c : String) (cs : List (String × Module)) (ind : String),
        Module.isTimed (ObjectDetection.wrap_model_layers (.raw c cs) ind) = false) := by
  constructor
  · intro root ind P h
    obtain ⟨c, cs, cs', hroot, hwc, hP⟩ := wrap_some_elim root ind P h
    obtain ⟨hstrip, -, -, -, -, -⟩ := wrap_props root ind P h
    obtain ⟨hmap, -, hcov, -, -, -, -, -⟩ := wrapChildren_props cs ind cs' hwc
    exact ⟨c, cs, cs', hroot, hP, hmap, coveredChildren_mem cs' hcov, hstrip⟩
  · intro c cs ind
    rfl

/-- Witness for C4 at a concrete tree. -/
theorem wrap_contract_witness :
    ∃ c cs cs',
      sampleRoot = .raw c cs ∧
      sampleWrapped = .timed (.raw c cs') c 0 "\t" ∧
      List.map Prod.fst cs' = List.map Prod.fst cs ∧
      (∀ p ∈ cs', p.2.isTimed = true ∧ fullCoverage p.2 = true) ∧
      Module.strip sampleWrapped = sampleRoot :=
  wrap_contract.1 sampleRoot "\t" sampleWrapped (by rfl)

/-- Counterexample to claim C4 as stated: the `object_detection` variant's
`wrap_model_layers` never constructs a Timing Proxy whose wrapped component
is the root — after the call the root object is still a raw component (and
the Python function's return value is `None`, not a proxy). -/
theorem wrap_contract_cex :
    ObjectDetection.wrap_model_layers (.raw "SSD" [("head", .raw "Head" [])]) "\t" =
      .raw "SSD" [("head", .timed (.raw "Head" []) "Head" 0 "\t")] ∧
    Module.isTimed
      (ObjectDetection.wrap_model_layers (.raw "SSD" [("head", .raw "Head" [])]) "\t") =
        false :=
  ⟨rfl, rfl⟩

/-- Claim C5 (no masking of delegated failures): if invoking the component
directly raises an exception, invoking the proxy of its wrapped tree raises
the very same exception; and if a profiled function raises, the wrapper
returned by `profile_function` raises the same exception.  Neither wrapper
catches, rewrites or retries. -/
theorem no_masking :
    (∀ (leaf : Leaf) (root P : Module) (ind : String) (v : Val) (g g' : Bool)
        (s s' : RunState) (e : Err),
        wrap_model_layers root ind = some P →
        (runModule leaf root v g' s').result = .error e →
        (runModule leaf P v g s).result = .error e) ∧
    (∀ (f : PyFunction) (x : Val) (clk : Clock) (e : Err),
        f.fn x = .error e → ((profile_function f).call x clk).result = .error e) := by
  constructor
  · intro leaf root P ind v g g' s s' e h he
    obtain ⟨-, -, -, -, hpe, -⟩ := wrap_props root ind P h
    rw [run_result leaf root v g' s'] at he
    rw [run_result leaf P v g s, hpe leaf v]
    exact he
  · intro f x clk e he
    simp [profile_function, he]

/-- Witness for C5 at a concrete erroring component. -/
theorem no_masking_witness :
    (runModule failLeaf sampleWrapped 5 true sampleState).result =
      .error "RuntimeError: boom" :=
  no_masking.1 failLeaf sampleRoot sampleWrapped "\t" 5 true false sampleState
    sampleState "RuntimeError: boom" (by rfl) (by rfl)

/-- Claim C6 (timing report correctness): for a wrapped tree, after invoking
the wrapped root (once, with any arguments, gradient mode and clock), the
report returned by `get_timings` is a nested
`{module_name, total_time, sub_modules}` record whose shape — built by
recursing only into children that are proxies — equals the original
component tree's shape, and every recorded duration in it is
non-negative. -/
theorem timing_report (leaf : Leaf) (root P : Module) (ind : String) (v : Val) (g : Bool)
    (s : RunState) (h : wrap_model_layers root ind = some P) :
    reportShape (get_timings (runModule leaf P v g s).layer) = shapeOf root ∧
    reportNonneg (get_timings (runModule leaf P v g s).layer) = true := by
  obtain ⟨-, -, hnn, -, -, hrs⟩ := wrap_props root ind P h
  constructor
  · rw [runShape_mod, hrs]
  · exact gt_nonneg _ (run_nonneg leaf P v g s hnn)

/-- Witness for C6 at a concrete tree and run. -/
theorem timing_report_witness :
    reportShape (get_timings (runModule sampleLeaf sampleWrapped 5 true sampleState).layer) =
      shapeOf sampleRoot ∧
    reportNonneg
      (get_timings (runModule sampleLeaf sampleWrapped 5 true sampleState).layer) = true :=
  timing_report sampleLeaf sampleRoot sampleWrapped "\t" 5 true sampleState (by rfl)

/-- Claim C7 (function profiler transparency): for every callable and input
on which the callable returns, the wrapper returned by `profile_function`
returns exactly the callable's value, logs exactly one line for the call,
and carries the callable's identity metadata (`__name__`, `__doc__`)
unchanged, as copied by `functools.wraps`. -/
theorem profiler_transparency (f : PyFunction) (x : Val) (clk : Clock) (v : Val)
    (h : f.fn x = .ok v) :
    ((profile_function f).call x clk).result = .ok v ∧
    ((profile_function f).call x clk).log.length = 1 ∧
    (profile_function f).name = f.name ∧
    (profile_function f).doc = f.doc := by
  refine ⟨?_, ?_, rfl, rfl⟩ <;> simp [profile_function, h]

/-- Witness for C7 on the doubling function. -/
theorem profiler_transparency_witness :
    ((profile_function sampleFunction).call 21 ⟨0, [5, 7]⟩).result = .ok 42 ∧
    ((profile_function sampleFunction).call 21 ⟨0, [5, 7]⟩).log.length = 1 ∧
    (profile_function sampleFunction).name = sampleFunction.name ∧
    (profile_function sampleFunction).doc = sampleFunction.doc :=
  profiler_transparency sampleFunction 21 ⟨0, [5, 7]⟩ 42 (by rfl)

/-- Claim C8 (attribute forwarding with precedence): a capability defined on
the proxy itself is served by the proxy (normal lookup wins before
`__getattr__` is ever consulted); a capability absent on the proxy (both
from normal lookup and from the torch registries searched by
`super().__getattr__`) resolves to the wrapped module; and a capability
absent on both the proxy and the wrapped module yields the standard
`AttributeError` (modeled as `none`). -/
theorem attribute_forwarding {β : Type} (t : TimedLayerAttrs β) (n : String) :
    (∀ v, lookupAttr t.ownAttrs n = some v → getattrTimed t n = some v) ∧
    (lookupAttr t.ownAttrs n = none → lookupAttr t.registered n = none →
        getattrTimed t n = lookupAttr t.wrappedAttrs n) ∧
    (lookupAttr t.ownAttrs n = none → lookupAttr t.registered n = none →
        lookupAttr t.wrappedAttrs n = none → getattrTimed t n = none) := by
  refine ⟨?_, ?_, ?_⟩
  · intro v hv
    simp [getattrTimed, hv]
  · intro h1 h2
    simp [getattrTimed, dunderGetattr, h1, h2]
  · intro h1 h2 h3
    simp [getattrTimed, dunderGetattr, h1, h2, h3]

/-- Witness for C8 on concrete attribute tables. -/
theorem attribute_forwarding_witness :
    getattrTimed sampleAttrs "forward" = some 1 ∧
    getattrTimed sampleAttrs "postprocess" = lookupAttr sampleAttrs.wrappedAttrs "postprocess" ∧
    getattrTimed sampleAttrs "missing" = none :=
  ⟨(attribute_forwarding sampleAttrs "forward").1 1 (by rfl),
    (attribute_forwarding sampleAttrs "postprocess").2.1 (by rfl) (by rfl),
    (attribute_forwarding sampleAttrs "missing").2.2 (by rfl) (by rfl) (by rfl)⟩

/-- Claim C9, amended: in the proxy tree produced by
`pytorchures.wrap_model_layers root ind`, the root proxy carries `ind`, the
proxies installed on the root's direct child slots also carry exactly `ind`
(the same indent as the root proxy, not one deeper — the deeper-indented
proxy built by the recursive call is discarded), and from there on each
deeper level's installed proxies carry exactly one more `"\t"` than their
parent's installed proxy. -/
theorem indent_law (root : Module) (ind : String) (P : Module)
    (h : wrap_model_layers root ind = some P) :
    ∃ inner, P = .timed inner (Module.className root) 0 ind ∧
      slotsIndented inner ind = true := by
  obtain ⟨c, cs, cs', hroot, hwc, hP⟩ := wrap_some_elim root ind P h
  obtain ⟨-, -, -, hsl, -, -⟩ := wrap_props root ind P h
  subst hroot
  refine ⟨.raw c cs', by rw [hP]; rfl, ?_⟩
  rw [hP] at hsl
  simpa only [innerModule] using hsl

/-- Witness for C9 at a concrete tree. -/
theorem indent_law_witness :
    ∃ inner, sampleWrapped = .timed inner (Module.className sampleRoot) 0 "\t" ∧
      slotsIndented inner "\t" = true :=
  indent_law sampleRoot "\t" sampleWrapped (by rfl)

/-- Counterexample to claim C9 as stated: wrapping a two-level tree with the
default indent installs a child proxy whose indent is `"\t"` — equal to the
root proxy's indent, not one tab deeper. -/
theorem indent_law_cex :
    wrap_model_layers (.raw "Net" [("conv", .raw "Conv" [])]) "\t" =
      some (.timed (.raw "Net" [("conv", .timed (.raw "Conv" []) "Conv" 0 "\t")])
        "Net" 0 "\t") ∧
    "\t" ≠ "\t" ++ "\t" :=
  ⟨rfl, by decide⟩

/-- Claim C10 (no-grad frame effect): in the `pytorchures` variant every
proxy invocation delegates inside `torch.no_grad()`, so no gradient
recording happens on the autograd tape during the delegated call, whatever
the ambient gradient mode — while a direct invocation of a raw leaf with
gradient mode enabled does record. -/
theorem no_grad_delegation :
    (∀ (leaf : Leaf) (m : Module) (n : String) (t : Int) (i : String) (v : Val) (g : Bool)
        (s : RunState), (runModule leaf (.timed m n t i) v g s).state.tape = s.tape) ∧
    (∀ (leaf : Leaf) (c : String) (v : Val) (s : RunState),
        (runModule leaf (.raw c []) v true s).state.tape = s.tape ++ [c]) := by
  constructor
  · intro leaf m n t i v g s
    have ih := run_tape_nograd leaf m v { s with clock := (tick s.clock).2 }
    simp only [runModule]
    split
    · exact ih
    · exact ih
  · intro leaf c v s
    simp [runModule]

end Timing
